import Mathlib

/-!
Shallow embedding of `dipy/align/bundlemin.pyx`.

The source file computes the Minimum-average-Direct-Flip (MDF) distance
between 3D streamlines and two reductions over it: the full pairwise
distance matrix and the scalar bundle-minimum-distance objective.

Machine doubles are modelled by `ℝ`; the only place where a double can
become non-finite in this code is an unguarded division whose denominator
is an element count, so divisions are modelled by `fdiv`, returning
`Option ℝ` where `none` stands for a non-finite IEEE result (in every
reachable case the numerator is an empty sum, so the value is the
indeterminate form 0/0, i.e. NaN).  A streamline buffer is a flat
`ℕ → ℝ` map, point `i` coordinate `j` living at index `i * 3 + j`,
exactly as the Cython code addresses `a[i * 3 + j]`.
-/

namespace Bundlemin

/-- IEEE double division by an element count, as performed by the
unguarded `cdivision` statements of the source.  A zero count yields a
non-finite result (`none`); in every reachable call the numerator is then
an empty accumulation, so the result models the NaN produced by 0/0. -/
noncomputable def fdiv (x : ℝ) (n : ℕ) : Option ℝ :=
  if n = 0 then none else some (x / n)

/-- Accumulated direct-order distance of `min_direct_flip_dist`
(source lines 59-70): for each point `i`, the Euclidean norm of the
3-vector `a[i*3+j] - b[i*3+j]`, summed over all `rows` points. -/
noncomputable def directSum (a b : ℕ → ℝ) (rows : ℕ) : ℝ :=
  ∑ i ∈ Finset.range rows, Real.sqrt (∑ j ∈ Finset.range 3,
    (a (i * 3 + j) - b (i * 3 + j)) * (a (i * 3 + j) - b (i * 3 + j)))

/-- Accumulated flipped-order distance of `min_direct_flip_dist`
(source lines 59-70): point `i` of `a` against point `rows - 1 - i`
of `b`. -/
noncomputable def flipSum (a b : ℕ → ℝ) (rows : ℕ) : ℝ :=
  ∑ i ∈ Finset.range rows, Real.sqrt (∑ j ∈ Finset.range 3,
    (a (i * 3 + j) - b ((rows - 1 - i) * 3 + j)) *
    (a (i * 3 + j) - b ((rows - 1 - i) * 3 + j)))

/-- Translation of `min_direct_flip_dist` (source lines 28-75): both
accumulated distances are divided by `rows` and the smaller mean is
returned, the `dist <= distf` comparison sending exact ties to the
direct mean. -/
noncomputable def min_direct_flip_dist (a b : ℕ → ℝ) (rows : ℕ) : Option ℝ := do
  let dist ← fdiv (directSum a b rows) rows
  let distf ← fdiv (flipSum a b rows) rows
  if dist ≤ distf then pure dist else pure distf

/-- Spec-side Euclidean distance between point `ia` of `a` and point `ib`
of `b`, both stored in flat `rows * 3` layout.  This is the "Euclidean
distance between 3D points" named by the specification; the claim
theorems compare the source translation against it. -/
noncomputable def dist3 (a b : ℕ → ℝ) (ia ib : ℕ) : ℝ :=
  Real.sqrt ((a (ia * 3) - b (ib * 3)) ^ 2 +
    (a (ia * 3 + 1) - b (ib * 3 + 1)) ^ 2 +
    (a (ia * 3 + 2) - b (ib * 3 + 2)) ^ 2)

/-- Value of `np.finfo('f8').max` (source line 170): the largest finite
IEEE double, `(2^53 - 1) * 2^971`. -/
noncomputable def f8max : ℝ := (2 ^ 53 - 1) * 2 ^ 971

/-- One compare-and-update of a running minimum against a freshly
computed pair distance (source lines 200-204): a non-finite `tmp`
(`none`) fails the `tmp < current` comparison and leaves the slot
unchanged, exactly as a NaN does in IEEE ordering. -/
noncomputable def updMin (tmp : Option ℝ) (m : ℝ) : ℝ :=
  match tmp with
  | none => m
  | some t => if t < m then t else m

/-- Mutable state touched by the two compiled reduction routines: the
caller-supplied flattened static and moving geometry buffers, the output
distance matrix, and the two malloc'd reduction scratch arrays (whose
incoming contents model uninitialized memory). -/
structure CoreState where
  statBuf : ℕ → ℝ
  movBuf : ℕ → ℝ
  matOut : ℕ → ℕ → Option ℝ
  minJ : ℕ → ℝ
  minI : ℕ → ℝ

/-- Pointer `&buf[i * rows, 0]` into a flattened `(size * rows, 3)`
streamline block: streamline `i` starts at flat offset `i * rows * 3`. -/
def streamAt (buf : ℕ → ℝ) (rows i : ℕ) : ℕ → ℝ :=
  fun k => buf (i * rows * 3 + k)

/-- Pair distance computed by both reduction loops for static index `i`
and moving index `j` (source lines 123-125 and 195-196). -/
noncomputable def tmpD (s : CoreState) (rows i j : ℕ) : Option ℝ :=
  min_direct_flip_dist (streamAt s.statBuf rows i) (streamAt s.movBuf rows j) rows

/-- Single store `D[i, j] = v` into a distance matrix. -/
def writeMat (D : ℕ → ℕ → Option ℝ) (i j : ℕ) (v : Option ℝ) : ℕ → ℕ → Option ℝ :=
  fun i' j' => if i' = i ∧ j' = j then v else D i' j'

/-- Inner loop of a matrix fill: writes `D[i, j] = f i j` for every
`j < M` of one fixed row `i`. -/
def fillRow (f : ℕ → ℕ → Option ℝ) (M i : ℕ) (D : ℕ → ℕ → Option ℝ) : ℕ → ℕ → Option ℝ :=
  (List.range M).foldl (fun D' j => writeMat D' i j (f i j)) D

/-- Double loop of a matrix fill over all `i < S`, `j < M`. -/
def fillGrid (f : ℕ → ℕ → Option ℝ) (S M : ℕ) (D : ℕ → ℕ → Option ℝ) : ℕ → ℕ → Option ℝ :=
  (List.range S).foldl (fun D' i => fillRow f M i D') D

/-- Translation of `_bundle_minimum_distance_matrix` (source lines
78-127): every cell of the caller-supplied matrix gets the MDF distance
of the corresponding static/moving pair; no other state is touched. -/
noncomputable def _bundle_minimum_distance_matrix (S M rows : ℕ) (s : CoreState) : CoreState :=
  { s with matOut := fillGrid (fun i j => tmpD s rows i j) S M s.matOut }

/-- Initialization loops of `_bundle_minimum_distance` (source lines
185-189): every element below `n` of a freshly malloc'd scratch array
(incoming contents `g`) is set to `np.finfo('f8').max`. -/
noncomputable def initScratch (g : ℕ → ℝ) (n : ℕ) : ℕ → ℝ :=
  (List.range n).foldl (fun arr k => Function.update arr k f8max) g

/-- Both scratch arrays of `_bundle_minimum_distance` after their
initialization loops. -/
noncomputable def bundleInit (S M : ℕ) (s : CoreState) : CoreState :=
  { s with minJ := initScratch s.minJ S, minI := initScratch s.minI M }

/-- Body of the doubly nested reduction loop of
`_bundle_minimum_distance` (source lines 195-206): compute the pair
distance and fold it into `min_j[i]` and `min_i[j]`. -/
noncomputable def bundleStep (rows i j : ℕ) (s : CoreState) : CoreState :=
  { s with
    minJ := Function.update s.minJ i (updMin (tmpD s rows i j) (s.minJ i)),
    minI := Function.update s.minI j (updMin (tmpD s rows i j) (s.minI j)) }

/-- Inner loop over the moving index `j` for one static index `i`. -/
noncomputable def bundleInner (M rows i : ℕ) (s : CoreState) : CoreState :=
  (List.range M).foldl (fun st j => bundleStep rows i j st) s

/-- Outer loop over the static index `i` (source line 191); the
parallel `prange` is modelled sequentially, which is value-equivalent
because each `min_j[i]` slot is only folded over its own row and each
`min_i[j]` fold is commutative under `min`. -/
noncomputable def bundleLoops (S M rows : ℕ) (s : CoreState) : CoreState :=
  (List.range S).foldl (fun st i => bundleInner M rows i st) s

/-- Translation of `_bundle_minimum_distance` (source lines 130-224):
initialize the scratch arrays, run the reduction loops, sum both arrays,
and return `0.25 * (sum_i / static_size + sum_j / moving_size)^2`,
together with the final state. -/
noncomputable def _bundle_minimum_distance (S M rows : ℕ) (s : CoreState) :
    CoreState × Option ℝ :=
  let s2 := bundleLoops S M rows (bundleInit S M s)
  (s2, do
    let x ← fdiv (∑ i ∈ Finset.range S, s2.minJ i) S
    let y ← fdiv (∑ j ∈ Finset.range M, s2.minI j) M
    pure (0.25 * (x + y) * (x + y)))

/-- Caller-supplied streamline collection as handed to
`distance_matrix_mdf`: element `k` has `npts k` points and flat
coordinate buffer `coords k` (point `p` coordinate `c` at index
`p * 3 + c`).  The `np.ascontiguousarray(..., dtype=float64)` copies of
the source are value-preserving, so the copied tracks carry the same
coordinates. -/
structure StreamlineSet where
  size : ℕ
  npts : ℕ → ℕ
  coords : ℕ → ℕ → ℝ

/-- Error message raised by `distance_matrix_mdf` on a point-count
mismatch (source lines 262-264; the source concatenates the two parts
without a separating space). -/
def shapeMismatchMsg : String :=
  "Streamlines should have the same number of points as required" ++
    "by the MDF distance"

/-- Translation of `distance_matrix_mdf` (source lines 227-289): the
first elements of the two collections must share a point count,
otherwise a `ValueError` is raised; on success every cell of the
zero-initialized `DM` gets the MDF distance of the corresponding track
pair, computed with `t_len = tracksA64[0].shape[0]` points. -/
noncomputable def distance_matrix_mdf (A B : StreamlineSet) :
    Except String (ℕ → ℕ → Option ℝ) :=
  if A.npts 0 ≠ B.npts 0 then Except.error shapeMismatchMsg
  else Except.ok (fillGrid
    (fun i j => min_direct_flip_dist (A.coords i) (B.coords j) (A.npts 0))
    A.size B.size (fun _ _ => some 0))

/-- Observable effects of one `distance_matrix_mdf` call, in source
order: buffer allocations, the `ValueError` raise, copies into the
normalized track holders, pair-distance computations, and stores into
`DM`. -/
inductive AdapterEvent where
  | allocTracksA : AdapterEvent
  | allocTracksB : AdapterEvent
  | allocDM : AdapterEvent
  | raiseShapeMismatch : AdapterEvent
  | copyTrackA : ℕ → AdapterEvent
  | copyTrackB : ℕ → AdapterEvent
  | distComp : ℕ → ℕ → AdapterEvent
  | writeDM : ℕ → ℕ → AdapterEvent
deriving DecidableEq

/-- Memory regions visible to one `distance_matrix_mdf` call: the two
caller-owned input collections and the three buffers the call
allocates. -/
inductive Region where
  | inputA : Region
  | inputB : Region
  | tracksA64 : Region
  | tracksB64 : Region
  | dm : Region
deriving DecidableEq

/-- Buffer written by an adapter event, if any: allocations and copies
touch only the freshly allocated holders, and matrix stores touch only
`DM`; no source statement assigns into `streamlines_a` or
`streamlines_b`. -/
def writeTarget : AdapterEvent → Option Region
  | AdapterEvent.allocTracksA => some Region.tracksA64
  | AdapterEvent.allocTracksB => some Region.tracksB64
  | AdapterEvent.allocDM => some Region.dm
  | AdapterEvent.raiseShapeMismatch => none
  | AdapterEvent.copyTrackA _ => some Region.tracksA64
  | AdapterEvent.copyTrackB _ => some Region.tracksB64
  | AdapterEvent.distComp _ _ => none
  | AdapterEvent.writeDM _ _ => some Region.dm

/-- Whether an event is a buffer allocation (source lines 258-260). -/
def isAllocation : AdapterEvent → Bool
  | AdapterEvent.allocTracksA => true
  | AdapterEvent.allocTracksB => true
  | AdapterEvent.allocDM => true
  | _ => false

/-- Whether an event is a pair-distance computation (source line 287). -/
def isDistanceComp : AdapterEvent → Bool
  | AdapterEvent.distComp _ _ => true
  | _ => false

/-- Effect trace of `distance_matrix_mdf` in source order: the three
`np.zeros` allocations (lines 258-260) happen first, then the shape
check either raises (line 264) or the call proceeds to the track copies
(lines 266-269) and the distance double loop (lines 280-287). -/
def adapterTrace (A B : StreamlineSet) : List AdapterEvent :=
  [AdapterEvent.allocTracksA, AdapterEvent.allocTracksB, AdapterEvent.allocDM] ++
  (if A.npts 0 ≠ B.npts 0 then [AdapterEvent.raiseShapeMismatch]
   else ((List.range A.size).map AdapterEvent.copyTrackA) ++
     ((List.range B.size).map AdapterEvent.copyTrackB) ++
     ((List.range A.size).flatMap fun i => (List.range B.size).flatMap fun j =>
       [AdapterEvent.distComp i j, AdapterEvent.writeDM i j]))

/-- Trace segment preceding the `ValueError` raise. -/
def beforeRaise (tr : List AdapterEvent) : List AdapterEvent :=
  tr.takeWhile fun e => decide (e ≠ AdapterEvent.raiseShapeMismatch)

/-- Reversal of a flat streamline buffer with `rows` points: point `i`
of the reversal is point `rows - 1 - i` of the original. -/
def revStream (a : ℕ → ℝ) (rows : ℕ) : ℕ → ℝ :=
  fun k => a ((rows - 1 - k / 3) * 3 + k % 3)

/-- Concrete one-streamline set with a single point, used by witnesses. -/
noncomputable def exA : StreamlineSet := ⟨1, fun _ => 1, fun _ _ => 0⟩

/-- Concrete one-streamline set with two points per streamline, used to
exhibit a point-count mismatch against `exA`. -/
noncomputable def exB : StreamlineSet := ⟨1, fun _ => 2, fun _ _ => 0⟩

/-- Concrete all-zero core state used by witnesses. -/
noncomputable def exState : CoreState :=
  ⟨fun _ => 0, fun _ => 0, fun _ _ => some 0, fun _ => 0, fun _ => 0⟩

/-- Concrete one-streamline set with a single point, matching `exA` in
point count, used by witnesses. -/
noncomputable def exC : StreamlineSet := ⟨1, fun _ => 1, fun _ _ => 0⟩

lemma fdiv_of_ne_zero (x : ℝ) {n : ℕ} (h : n ≠ 0) : fdiv x n = some (x / n) := by
  simp [fdiv, h]

lemma fdiv_zero (x : ℝ) : fdiv x 0 = none := by
  simp [fdiv]

lemma min_direct_flip_dist_of_ne_zero (a b : ℕ → ℝ) {rows : ℕ} (h : rows ≠ 0) :
    min_direct_flip_dist a b rows =
      some (if directSum a b rows / rows ≤ flipSum a b rows / rows
        then directSum a b rows / rows else flipSum a b rows / rows) := by
  rw [min_direct_flip_dist, fdiv_of_ne_zero _ h, fdiv_of_ne_zero _ h]
  by_cases hle : directSum a b rows / rows ≤ flipSum a b rows / rows
  · simp [hle]
  · simp [hle]

lemma min_direct_flip_dist_zero_rows (a b : ℕ → ℝ) :
    min_direct_flip_dist a b 0 = none := by
  rw [min_direct_flip_dist, fdiv_zero]
  rfl

lemma sqrt_term_eq_dist3 (a b : ℕ → ℝ) (ia ib : ℕ) :
    Real.sqrt (∑ j ∈ Finset.range 3,
      (a (ia * 3 + j) - b (ib * 3 + j)) * (a (ia * 3 + j) - b (ib * 3 + j))) =
    dist3 a b ia ib := by
  rw [dist3]
  congr 1
  rw [Finset.sum_range_succ, Finset.sum_range_succ, Finset.sum_range_one]
  norm_num
  ring

lemma directSum_eq_sum_dist3 (a b : ℕ → ℝ) (rows : ℕ) :
    directSum a b rows = ∑ i ∈ Finset.range rows, dist3 a b i i := by
  unfold directSum
  exact Finset.sum_congr rfl fun i _ => sqrt_term_eq_dist3 a b i i

lemma flipSum_eq_sum_dist3 (a b : ℕ → ℝ) (rows : ℕ) :
    flipSum a b rows = ∑ i ∈ Finset.range rows, dist3 a b i (rows - 1 - i) := by
  unfold flipSum
  exact Finset.sum_congr rfl fun i _ => sqrt_term_eq_dist3 a b i (rows - 1 - i)

lemma directSum_nonneg (a b : ℕ → ℝ) (rows : ℕ) : 0 ≤ directSum a b rows :=
  Finset.sum_nonneg fun _ _ => Real.sqrt_nonneg _

lemma flipSum_nonneg (a b : ℕ → ℝ) (rows : ℕ) : 0 ≤ flipSum a b rows :=
  Finset.sum_nonneg fun _ _ => Real.sqrt_nonneg _

lemma writeMat_same (D : ℕ → ℕ → Option ℝ) (i j : ℕ) (v : Option ℝ) :
    writeMat D i j v i j = v := by
  simp [writeMat]

lemma writeMat_ne (D : ℕ → ℕ → Option ℝ) (i j : ℕ) (v : Option ℝ)
    {i' j' : ℕ} (h : ¬(i' = i ∧ j' = j)) : writeMat D i j v i' j' = D i' j' := by
  simp only [writeMat, if_neg h]

lemma foldl_writeRow_row_ne (l : List ℕ) (f : ℕ → ℕ → Option ℝ) (i : ℕ)
    (D : ℕ → ℕ → Option ℝ) {i' : ℕ} (j' : ℕ) (h : i' ≠ i) :
    (l.foldl (fun D' j => writeMat D' i j (f i j)) D) i' j' = D i' j' := by
  induction l generalizing D with
  | nil => rfl
  | cons c t ih =>
    rw [List.foldl_cons, ih]
    exact writeMat_ne _ _ _ _ fun hc => h hc.1

lemma foldl_writeRow_notmem (l : List ℕ) (f : ℕ → ℕ → Option ℝ) (i : ℕ) :
    ∀ (D : ℕ → ℕ → Option ℝ) (j' : ℕ), j' ∉ l →
      (l.foldl (fun D' j => writeMat D' i j (f i j)) D) i j' = D i j' := by
  induction l with
  | nil => intro D j' _; rfl
  | cons c t ih =>
    intro D j' h
    rw [List.foldl_cons, ih _ _ (fun hm => h (List.mem_cons_of_mem _ hm))]
    exact writeMat_ne _ _ _ _ fun hc => h (hc.2 ▸ List.mem_cons_self c t)

lemma foldl_writeRow_mem (l : List ℕ) (f : ℕ → ℕ → Option ℝ) (i : ℕ) :
    ∀ (D : ℕ → ℕ → Option ℝ) (j' : ℕ), l.Nodup → j' ∈ l →
      (l.foldl (fun D' j => writeMat D' i j (f i j)) D) i j' = f i j' := by
  induction l with
  | nil => intro D j' _ h; cases h
  | cons c t ih =>
    intro D j' hl h
    rw [List.foldl_cons]
    rcases List.mem_cons.mp h with rfl | hmem
    · rw [foldl_writeRow_notmem _ _ _ _ _ (List.nodup_cons.mp hl).1]
      exact writeMat_same _ _ _ _
    · exact ih _ _ (List.nodup_cons.mp hl).2 hmem

lemma fillRow_spec (f : ℕ → ℕ → Option ℝ) {M : ℕ} (i : ℕ)
    (D : ℕ → ℕ → Option ℝ) {j : ℕ} (hj : j < M) :
    fillRow f M i D i j = f i j :=
  foldl_writeRow_mem _ f i D j (List.nodup_range M) (List.mem_range.mpr hj)

lemma fillRow_row_ne (f : ℕ → ℕ → Option ℝ) (M : ℕ) (i : ℕ)
    (D : ℕ → ℕ → Option ℝ) {i' : ℕ} (j' : ℕ) (h : i' ≠ i) :
    fillRow f M i D i' j' = D i' j' :=
  foldl_writeRow_row_ne _ f i D j' h

lemma foldl_fillRow_notmem (l : List ℕ) (f : ℕ → ℕ → Option ℝ) (M : ℕ) :
    ∀ (D : ℕ → ℕ → Option ℝ) (i j : ℕ), i ∉ l →
      (l.foldl (fun D' i' => fillRow f M i' D') D) i j = D i j := by
  induction l with
  | nil => intro D i j _; rfl
  | cons c t ih =>
    intro D i j h
    rw [List.foldl_cons, ih _ _ _ (fun hm => h (List.mem_cons_of_mem _ hm))]
    exact fillRow_row_ne f M c D j fun hc => h (hc ▸ List.mem_cons_self c t)

lemma fillGrid_spec (f : ℕ → ℕ → Option ℝ) {S M : ℕ}
    (D : ℕ → ℕ → Option ℝ) {i j : ℕ} (hi : i < S) (hj : j < M) :
    fillGrid f S M D i j = f i j := by
  unfold fillGrid
  have key : ∀ (l : List ℕ) (D : ℕ → ℕ → Option ℝ), l.Nodup → i ∈ l →
      (l.foldl (fun D' i' => fillRow f M i' D') D) i j = f i j := by
    intro l
    induction l with
    | nil => intro D _ h; cases h
    | cons c t ih =>
      intro D hl h
      rw [List.foldl_cons]
      rcases List.mem_cons.mp h with rfl | hmem
      · rw [foldl_fillRow_notmem _ _ _ _ _ _ (List.nodup_cons.mp hl).1]
        exact fillRow_spec f i D hj
      · exact ih _ (List.nodup_cons.mp hl).2 hmem
  exact key _ D (List.nodup_range S) (List.mem_range.mpr hi)

lemma tmpD_congr {s₁ s₂ : CoreState} (h1 : s₁.statBuf = s₂.statBuf)
    (h2 : s₁.movBuf = s₂.movBuf) (rows i j : ℕ) :
    tmpD s₁ rows i j = tmpD s₂ rows i j := by
  unfold tmpD streamAt
  rw [h1, h2]

lemma tmpD_bundleStep (rows i' j' i j : ℕ) (s : CoreState) :
    tmpD (bundleStep rows i' j' s) rows i j = tmpD s rows i j := rfl

lemma minJ_bundleStep_self (rows i j : ℕ) (s : CoreState) :
    (bundleStep rows i j s).minJ i = updMin (tmpD s rows i j) (s.minJ i) := by
  simp [bundleStep]

lemma minJ_bundleStep_ne (rows i j : ℕ) (s : CoreState) {i' : ℕ} (h : i' ≠ i) :
    (bundleStep rows i j s).minJ i' = s.minJ i' := by
  simp [bundleStep, Function.update_noteq h]

lemma minI_bundleStep_self (rows i j : ℕ) (s : CoreState) :
    (bundleStep rows i j s).minI j = updMin (tmpD s rows i j) (s.minI j) := by
  simp [bundleStep]

lemma minI_bundleStep_ne (rows i j : ℕ) (s : CoreState) {j' : ℕ} (h : j' ≠ j) :
    (bundleStep rows i j s).minI j' = s.minI j' := by
  simp [bundleStep, Function.update_noteq h]

lemma bundleInner_bufs (M rows i : ℕ) (s : CoreState) :
    (bundleInner M rows i s).statBuf = s.statBuf ∧
      (bundleInner M rows i s).movBuf = s.movBuf := by
  unfold bundleInner
  generalize List.range M = l
  induction l generalizing s with
  | nil => exact ⟨rfl, rfl⟩
  | cons c t ih =>
    rw [List.foldl_cons]
    exact (ih (bundleStep rows i c s))

lemma bundleLoops_bufs (S M rows : ℕ) (s : CoreState) :
    (bundleLoops S M rows s).statBuf = s.statBuf ∧
      (bundleLoops S M rows s).movBuf = s.movBuf := by
  unfold bundleLoops
  generalize List.range S = l
  induction l generalizing s with
  | nil => exact ⟨rfl, rfl⟩
  | cons c t ih =>
    rw [List.foldl_cons]
    rcases ih (bundleInner M rows c s) with ⟨h1, h2⟩
    rcases bundleInner_bufs M rows c s with ⟨h3, h4⟩
    exact ⟨h1.trans h3, h2.trans h4⟩

lemma foldl_updMin_congr (l : List ℕ) (f g : ℕ → Option ℝ) (h : ∀ j, f j = g j)
    (m : ℝ) :
    l.foldl (fun m' j => updMin (f j) m') m =
      l.foldl (fun m' j => updMin (g j) m') m := by
  have hfg : f = g := funext h
  rw [hfg]

lemma bundleInner_minJ_self (M rows i : ℕ) (s : CoreState) :
    (bundleInner M rows i s).minJ i =
      (List.range M).foldl (fun m j => updMin (tmpD s rows i j) m) (s.minJ i) := by
  unfold bundleInner
  generalize List.range M = l
  induction l generalizing s with
  | nil => rfl
  | cons c t ih =>
    rw [List.foldl_cons, List.foldl_cons, ih (bundleStep rows i c s),
      minJ_bundleStep_self]
    exact foldl_updMin_congr _ _ _ (fun j => tmpD_bundleStep rows i c i j s) _

lemma bundleInner_minJ_ne (M rows i : ℕ) (s : CoreState) {i' : ℕ} (h : i' ≠ i) :
    (bundleInner M rows i s).minJ i' = s.minJ i' := by
  unfold bundleInner
  generalize List.range M = l
  induction l generalizing s with
  | nil => rfl
  | cons c t ih =>
    rw [List.foldl_cons, ih (bundleStep rows i c s), minJ_bundleStep_ne _ _ _ _ h]

lemma foldl_bundleStep_minI_notmem (l : List ℕ) (rows i : ℕ) :
    ∀ (s : CoreState) (j : ℕ), j ∉ l →
      ((l.foldl (fun st j' => bundleStep rows i j' st) s).minI j = s.minI j) := by
  induction l with
  | nil => intro s j _; rfl
  | cons c t ih =>
    intro s j h
    rw [List.foldl_cons, ih _ _ (fun hm => h (List.mem_cons_of_mem _ hm))]
    exact minI_bundleStep_ne _ _ _ _ fun hc => h (hc ▸ List.mem_cons_self c t)

lemma foldl_bundleStep_minI_mem (l : List ℕ) (rows i : ℕ) :
    ∀ (s : CoreState) (j : ℕ), l.Nodup → j ∈ l →
      ((l.foldl (fun st j' => bundleStep rows i j' st) s).minI j =
        updMin (tmpD s rows i j) (s.minI j)) := by
  induction l with
  | nil => intro s j _ h; cases h
  | cons c t ih =>
    intro s j hl h
    rw [List.foldl_cons]
    rcases List.mem_cons.mp h with rfl | hmem
    · rw [foldl_bundleStep_minI_notmem _ _ _ _ _ (List.nodup_cons.mp hl).1]
      exact minI_bundleStep_self _ _ _ _
    · rw [ih _ _ (List.nodup_cons.mp hl).2 hmem, minI_bundleStep_ne _ _ _ _
        (fun hc => (List.nodup_cons.mp hl).1 (by rw [← hc]; exact hmem)),
        tmpD_bundleStep]

lemma bundleInner_minI (M rows i : ℕ) (s : CoreState) {j : ℕ} (hj : j < M) :
    (bundleInner M rows i s).minI j = updMin (tmpD s rows i j) (s.minI j) :=
  foldl_bundleStep_minI_mem _ rows i s j (List.nodup_range M)
    (List.mem_range.mpr hj)

lemma foldl_bundleInner_minJ_notmem (l : List ℕ) (M rows : ℕ) :
    ∀ (s : CoreState) (i : ℕ), i ∉ l →
      ((l.foldl (fun st i' => bundleInner M rows i' st) s).minJ i = s.minJ i) := by
  induction l with
  | nil => intro s i _; rfl
  | cons c t ih =>
    intro s i h
    rw [List.foldl_cons, ih _ _ (fun hm => h (List.mem_cons_of_mem _ hm))]
    exact bundleInner_minJ_ne M rows c s fun hc => h (hc ▸ List.mem_cons_self c t)

lemma bundleLoops_minJ (S M rows : ℕ) (s : CoreState) {i : ℕ} (hi : i < S) :
    (bundleLoops S M rows s).minJ i =
      (List.range M).foldl (fun m j => updMin (tmpD s rows i j) m) (s.minJ i) := by
  unfold bundleLoops
  have key : ∀ (l : List ℕ) (s : CoreState), l.Nodup → i ∈ l →
      ((l.foldl (fun st i' => bundleInner M rows i' st) s).minJ i =
        (List.range M).foldl (fun m j => updMin (tmpD s rows i j) m) (s.minJ i)) := by
    intro l
    induction l with
    | nil => intro s _ h; cases h
    | cons c t ih =>
      intro s hl h
      rw [List.foldl_cons]
      rcases List.mem_cons.mp h with rfl | hmem
      · rw [foldl_bundleInner_minJ_notmem _ _ _ _ _ (List.nodup_cons.mp hl).1]
        exact bundleInner_minJ_self M rows i s
      · rw [ih _ (List.nodup_cons.mp hl).2 hmem,
          bundleInner_minJ_ne M rows c s
            (fun hc => (List.nodup_cons.mp hl).1 (hc ▸ hmem))]
        rcases bundleInner_bufs M rows c s with ⟨h1, h2⟩
        exact foldl_updMin_congr _ _ _ (fun j => tmpD_congr h1 h2 rows i j) _
  exact key _ s (List.nodup_range S) (List.mem_range.mpr hi)

lemma bundleLoops_minI (S M rows : ℕ) (s : CoreState) {j : ℕ} (hj : j < M) :
    (bundleLoops S M rows s).minI j =
      (List.range S).foldl (fun m i => updMin (tmpD s rows i j) m) (s.minI j) := by
  unfold bundleLoops
  have key : ∀ (l : List ℕ) (s : CoreState),
      ((l.foldl (fun st i' => bundleInner M rows i' st) s).minI j =
        l.foldl (fun m i => updMin (tmpD s rows i j) m) (s.minI j)) := by
    intro l
    induction l with
    | nil => intro s; rfl
    | cons c t ih =>
      intro s
      rw [List.foldl_cons, List.foldl_cons, ih (bundleInner M rows c s),
        bundleInner_minI M rows c s hj]
      rcases bundleInner_bufs M rows c s with ⟨h1, h2⟩
      exact foldl_updMin_congr _ _ _ (fun i => tmpD_congr h1 h2 rows i j) _
  exact key _ s

lemma initScratch_lt (g : ℕ → ℝ) {n i : ℕ} (h : i < n) : initScratch g n i = f8max := by
  unfold initScratch
  induction n with
  | zero => cases h
  | succ m ih =>
    rw [List.range_succ, List.foldl_append, List.foldl_cons, List.foldl_nil]
    rcases Nat.lt_succ_iff_lt_or_eq.mp h with hlt | rfl
    · rw [Function.update_noteq (Nat.ne_of_lt hlt)]
      exact ih hlt
    · exact Function.update_same _ _ _

lemma initScratch_ge (g : ℕ → ℝ) {n i : ℕ} (h : n ≤ i) : initScratch g n i = g i := by
  unfold initScratch
  induction n with
  | zero => rfl
  | succ m ih =>
    rw [List.range_succ, List.foldl_append, List.foldl_cons, List.foldl_nil,
      Function.update_noteq (Nat.ne_of_gt (Nat.lt_of_lt_of_le (Nat.lt_succ_self m) h))]
    exact ih (Nat.le_of_succ_le h)

lemma updMin_some (t m : ℝ) : updMin (some t) m = min t m := by
  have h1 : updMin (some t) m = if t < m then t else m := rfl
  rw [h1]
  rcases le_or_lt m t with h | h
  · rw [if_neg (not_lt.mpr h), min_eq_right h]
  · rw [if_pos h, min_eq_left h.le]

lemma foldl_min_le_init (l : List ℕ) (v : ℕ → ℝ) :
    ∀ init : ℝ, l.foldl (fun m j => min (v j) m) init ≤ init := by
  induction l with
  | nil => intro init; exact le_refl _
  | cons c t ih =>
    intro init
    exact (ih _).trans (min_le_right _ _)

lemma foldl_min_le_mem (l : List ℕ) (v : ℕ → ℝ) :
    ∀ (init : ℝ) (j : ℕ), j ∈ l →
      l.foldl (fun m j' => min (v j') m) init ≤ v j := by
  induction l with
  | nil => intro init j h; cases h
  | cons c t ih =>
    intro init j h
    rcases List.mem_cons.mp h with rfl | hm
    · exact (foldl_min_le_init t v _).trans (min_le_left _ _)
    · exact ih _ _ hm

lemma le_foldl_min (l : List ℕ) (v : ℕ → ℝ) :
    ∀ (init c : ℝ), c ≤ init → (∀ j ∈ l, c ≤ v j) →
      c ≤ l.foldl (fun m j => min (v j) m) init := by
  induction l with
  | nil => intro init c h _; exact h
  | cons a t ih =>
    intro init c h hv
    exact ih _ _ (le_min (hv a (List.mem_cons_self a t)) h)
      fun j hj => hv j (List.mem_cons_of_mem _ hj)

lemma foldl_min_range_eq_inf' (v : ℕ → ℝ) (M : ℕ) (hM : M ≠ 0) (init : ℝ)
    (hb : ∀ j, j < M → v j ≤ init) :
    (List.range M).foldl (fun m j => min (v j) m) init =
      (Finset.range M).inf' (Finset.nonempty_range_iff.mpr hM) v := by
  apply le_antisymm
  · exact Finset.le_inf' _ v fun j hj =>
      foldl_min_le_mem _ v init j (List.mem_range.mpr (Finset.mem_range.mp hj))
  · apply le_foldl_min
    · obtain ⟨j0, hj0⟩ := Finset.nonempty_range_iff.mpr hM
      exact (Finset.inf'_le v hj0).trans (hb j0 (Finset.mem_range.mp hj0))
    · intro j hj
      exact Finset.inf'_le v (Finset.mem_range.mpr (List.mem_range.mp hj))

lemma foldl_updMin_congr_mem (l : List ℕ) (f g : ℕ → Option ℝ) :
    ∀ m : ℝ, (∀ j ∈ l, f j = g j) →
      l.foldl (fun m' j => updMin (f j) m') m =
        l.foldl (fun m' j => updMin (g j) m') m := by
  induction l with
  | nil => intro m _; rfl
  | cons c t ih =>
    intro m h
    rw [List.foldl_cons, List.foldl_cons, h c (List.mem_cons_self c t)]
    exact ih _ fun j hj => h j (List.mem_cons_of_mem _ hj)

lemma foldl_updMin_eq_min (l : List ℕ) (w : ℕ → ℝ) :
    ∀ m : ℝ, l.foldl (fun m' j => updMin (some (w j)) m') m =
      l.foldl (fun m' j => min (w j) m') m := by
  induction l with
  | nil => intro m; rfl
  | cons c t ih =>
    intro m
    rw [List.foldl_cons, List.foldl_cons, updMin_some]
    exact ih _

lemma tmpD_bundleInit (S M rows i j : ℕ) (s : CoreState) :
    tmpD (bundleInit S M s) rows i j = tmpD s rows i j := rfl

lemma bundle_final_minJ (s : CoreState) {S M rows : ℕ} (hM : M ≠ 0)
    (v : ℕ → ℕ → ℝ) (hv : ∀ i j, i < S → j < M → tmpD s rows i j = some (v i j))
    (hb : ∀ i j, i < S → j < M → v i j ≤ f8max) {i : ℕ} (hi : i < S) :
    (bundleLoops S M rows (bundleInit S M s)).minJ i =
      (Finset.range M).inf' (Finset.nonempty_range_iff.mpr hM) (v i) := by
  rw [bundleLoops_minJ S M rows _ hi]
  have hinit : (bundleInit S M s).minJ i = f8max := initScratch_lt s.minJ hi
  rw [hinit]
  rw [foldl_updMin_congr_mem _ _ (fun j => if j < M then some (v i j) else none) _
    (fun j hj => by
      have h := List.mem_range.mp hj
      simp only [tmpD_bundleInit, h, if_true]
      exact hv i j hi h)]
  rw [foldl_updMin_congr_mem _ _ (fun j => some (if j < M then v i j else 0)) _
    (fun j hj => by
      have h := List.mem_range.mp hj
      simp [h])]
  rw [foldl_updMin_eq_min]
  rw [foldl_min_range_eq_inf' _ M hM f8max
    (fun j hj => by rw [if_pos hj]; exact hb i j hi hj)]
  exact Finset.inf'_congr _ rfl fun j hj => if_pos (Finset.mem_range.mp hj)

lemma bundle_final_minI (s : CoreState) {S M rows : ℕ} (hS : S ≠ 0)
    (v : ℕ → ℕ → ℝ) (hv : ∀ i j, i < S → j < M → tmpD s rows i j = some (v i j))
    (hb : ∀ i j, i < S → j < M → v i j ≤ f8max) {j : ℕ} (hj : j < M) :
    (bundleLoops S M rows (bundleInit S M s)).minI j =
      (Finset.range S).inf' (Finset.nonempty_range_iff.mpr hS) (fun i => v i j) := by
  rw [bundleLoops_minI S M rows _ hj]
  have hinit : (bundleInit S M s).minI j = f8max := initScratch_lt s.minI hj
  rw [hinit]
  rw [foldl_updMin_congr_mem _ _ (fun i => if i < S then some (v i j) else none) _
    (fun i hi => by
      have h := List.mem_range.mp hi
      simp only [tmpD_bundleInit, h, if_true]
      exact hv i j h hj)]
  rw [foldl_updMin_congr_mem _ _ (fun i => some (if i < S then v i j else 0)) _
    (fun i hi => by
      have h := List.mem_range.mp hi
      simp [h])]
  rw [foldl_updMin_eq_min]
  rw [foldl_min_range_eq_inf' _ S hS f8max
    (fun i hi => by rw [if_pos hi]; exact hb i j hi hj)]
  exact Finset.inf'_congr _ rfl fun i hi => if_pos (Finset.mem_range.mp hi)

lemma bundle_snd_eval (S M rows : ℕ) (s : CoreState) (hS : S ≠ 0) (hM : M ≠ 0) :
    (_bundle_minimum_distance S M rows s).2 =
      some (0.25 *
        ((∑ i ∈ Finset.range S,
            (bundleLoops S M rows (bundleInit S M s)).minJ i) / S +
         (∑ j ∈ Finset.range M,
            (bundleLoops S M rows (bundleInit S M s)).minI j) / M) *
        ((∑ i ∈ Finset.range S,
            (bundleLoops S M rows (bundleInit S M s)).minJ i) / S +
         (∑ j ∈ Finset.range M,
            (bundleLoops S M rows (bundleInit S M s)).minI j) / M)) := by
  have h1 : (_bundle_minimum_distance S M rows s).2 =
      (fdiv (∑ i ∈ Finset.range S,
        (bundleLoops S M rows (bundleInit S M s)).minJ i) S).bind (fun x =>
      (fdiv (∑ j ∈ Finset.range M,
        (bundleLoops S M rows (bundleInit S M s)).minI j) M).bind (fun y =>
      some (0.25 * (x + y) * (x + y)))) := rfl
  rw [h1, fdiv_of_ne_zero _ hS, fdiv_of_ne_zero _ hM]
  rfl

lemma flat_div3 (p j : ℕ) (hj : j < 3) : (p * 3 + j) / 3 = p := by
  omega

lemma flat_mod3 (p j : ℕ) (hj : j < 3) : (p * 3 + j) % 3 = j := by
  omega

lemma revStream_point (a : ℕ → ℝ) (rows i j : ℕ) (hj : j < 3) :
    revStream a rows (i * 3 + j) = a ((rows - 1 - i) * 3 + j) := by
  unfold revStream
  rw [flat_div3 i j hj, flat_mod3 i j hj]

lemma mdf_zero_streams {rows : ℕ} (h : rows ≠ 0) :
    min_direct_flip_dist (fun _ => 0) (fun _ => 0) rows = some 0 := by
  have hd : directSum (fun _ => 0) (fun _ => 0) rows = 0 := by
    unfold directSum
    exact Finset.sum_eq_zero fun i _ => by
      rw [Finset.sum_eq_zero fun j _ => by simp, Real.sqrt_zero]
  have hf : flipSum (fun _ => 0) (fun _ => 0) rows = 0 := by
    unfold flipSum
    exact Finset.sum_eq_zero fun i _ => by
      rw [Finset.sum_eq_zero fun j _ => by simp, Real.sqrt_zero]
  rw [min_direct_flip_dist_of_ne_zero _ _ h, hd, hf, zero_div, if_pos le_rfl]

/-- C1: for every pair of equal-length streamlines with `rows ≥ 1`
points, `pair_distance` equals the minimum of the direct mean and the
flipped mean of per-point Euclidean distances, and an exact tie between
the two means returns the direct mean. -/
theorem pair_distance_is_min_of_direct_and_flipped_means
    (a b : ℕ → ℝ) (rows : ℕ) (h : 1 ≤ rows) :
    min_direct_flip_dist a b rows =
      some (min ((∑ i ∈ Finset.range rows, dist3 a b i i) / rows)
        ((∑ i ∈ Finset.range rows, dist3 a b i (rows - 1 - i)) / rows)) ∧
    ((∑ i ∈ Finset.range rows, dist3 a b i i) / rows =
        (∑ i ∈ Finset.range rows, dist3 a b i (rows - 1 - i)) / rows →
      min_direct_flip_dist a b rows =
        some ((∑ i ∈ Finset.range rows, dist3 a b i i) / rows)) := by
  have hz : rows ≠ 0 := by omega
  have hmain : min_direct_flip_dist a b rows =
      some (min ((∑ i ∈ Finset.range rows, dist3 a b i i) / rows)
        ((∑ i ∈ Finset.range rows, dist3 a b i (rows - 1 - i)) / rows)) := by
    rw [min_direct_flip_dist_of_ne_zero a b hz, min_def, directSum_eq_sum_dist3,
      flipSum_eq_sum_dist3]
  refine ⟨hmain, fun hEq => ?_⟩
  rw [hmain, hEq, min_self]

/-- Witness for C1 at `rows = 1` with two all-zero streamlines. -/
theorem pair_distance_is_min_of_direct_and_flipped_means_witness :
    1 ≤ 1 ∧ min_direct_flip_dist (fun _ => 0) (fun _ => 0) 1 =
      some (min
        ((∑ i ∈ Finset.range 1, dist3 (fun _ => 0) (fun _ => 0) i i) / ((1 : ℕ) : ℝ))
        ((∑ i ∈ Finset.range 1, dist3 (fun _ => 0) (fun _ => 0) i (1 - 1 - i)) /
          ((1 : ℕ) : ℝ))) :=
  ⟨le_refl 1,
    (pair_distance_is_min_of_direct_and_flipped_means (fun _ => 0) (fun _ => 0) 1
      (le_refl 1)).1⟩

/-- C8: `pair_distance` is symmetric in its two streamline arguments,
for every point count (both accumulated sums are symmetric in the two
buffers, the flipped one after reindexing `i ↦ rows - 1 - i`). -/
theorem pair_distance_comm (a b : ℕ → ℝ) (rows : ℕ) :
    min_direct_flip_dist a b rows = min_direct_flip_dist b a rows := by
  have hdir : directSum a b rows = directSum b a rows := by
    unfold directSum
    refine Finset.sum_congr rfl fun i _ => ?_
    congr 1
    refine Finset.sum_congr rfl fun j _ => ?_
    ring
  have hflip : flipSum a b rows = flipSum b a rows := by
    unfold flipSum
    conv_rhs => rw [← Finset.sum_range_reflect]
    refine Finset.sum_congr rfl fun i hi => ?_
    have hi' : i < rows := Finset.mem_range.mp hi
    have hsub : rows - 1 - (rows - 1 - i) = i := by omega
    rw [hsub]
    congr 1
    refine Finset.sum_congr rfl fun j _ => ?_
    ring
  unfold min_direct_flip_dist
  rw [hdir, hflip]

/-- C7: comparing a streamline with `rows ≥ 1` points to its own
reversal yields distance zero, through the flipped branch. -/
theorem pair_distance_self_reverse_eq_zero (a : ℕ → ℝ) (rows : ℕ) (h : 1 ≤ rows) :
    min_direct_flip_dist a (revStream a rows) rows = some 0 := by
  have hz : rows ≠ 0 := by omega
  have hflip : flipSum a (revStream a rows) rows = 0 := by
    unfold flipSum
    refine Finset.sum_eq_zero fun i hi => ?_
    have hi' : i < rows := Finset.mem_range.mp hi
    have hterm : ∀ j ∈ Finset.range 3,
        (a (i * 3 + j) - revStream a rows ((rows - 1 - i) * 3 + j)) *
          (a (i * 3 + j) - revStream a rows ((rows - 1 - i) * 3 + j)) = 0 := by
      intro j hj
      rw [revStream_point a rows _ j (Finset.mem_range.mp hj)]
      have hsub : rows - 1 - (rows - 1 - i) = i := by omega
      rw [hsub, sub_self, mul_zero]
    rw [Finset.sum_eq_zero hterm, Real.sqrt_zero]
  rw [min_direct_flip_dist_of_ne_zero a _ hz, hflip, zero_div]
  have hd : 0 ≤ directSum a (revStream a rows) rows / rows :=
    div_nonneg (directSum_nonneg _ _ _) (Nat.cast_nonneg rows)
  by_cases hle : directSum a (revStream a rows) rows / rows ≤ 0
  · rw [if_pos hle]
    exact congrArg some (le_antisymm hle hd)
  · rw [if_neg hle]

/-- Witness for C7 at `rows = 1` with an all-zero streamline. -/
theorem pair_distance_self_reverse_eq_zero_witness :
    1 ≤ 1 ∧ min_direct_flip_dist (fun _ => 0) (revStream (fun _ => 0) 1) 1 = some 0 :=
  ⟨le_refl 1, pair_distance_self_reverse_eq_zero (fun _ => 0) 1 (le_refl 1)⟩

/-- Counterexample for C6: at `rows = 0` the unguarded division produces
the indeterminate 0/0 (NaN), so `pair_distance` does not return a
non-negative value for that input, refuting "no exception for any
input". -/
theorem pair_distance_not_nonneg_at_zero_rows :
    ¬ ∃ r : ℝ, min_direct_flip_dist (fun _ => 0) (fun _ => 0) 0 = some r ∧ 0 ≤ r := by
  rintro ⟨r, hr, -⟩
  rw [min_direct_flip_dist_zero_rows] at hr
  exact Option.noConfusion hr

/-- C6 as amended: for `rows ≥ 1`, `pair_distance` returns a finite
non-negative value, and consequently every in-range cell of the distance
matrix holds a finite non-negative value; at `rows = 0` the result is
the NaN from the unguarded 0/0 instead. -/
theorem pair_distance_nonneg_for_positive_rows (a b : ℕ → ℝ) (rows : ℕ)
    (h : 1 ≤ rows) :
    (∃ r, min_direct_flip_dist a b rows = some r ∧ 0 ≤ r) ∧
    ∀ (s : CoreState) (S M i j : ℕ), i < S → j < M →
      ∃ r, (_bundle_minimum_distance_matrix S M rows s).matOut i j = some r ∧
        0 ≤ r := by
  have hz : rows ≠ 0 := by omega
  have main : ∀ u v : ℕ → ℝ,
      ∃ r, min_direct_flip_dist u v rows = some r ∧ 0 ≤ r := by
    intro u v
    rw [min_direct_flip_dist_of_ne_zero u v hz]
    refine ⟨_, rfl, ?_⟩
    have h1 : 0 ≤ directSum u v rows / rows :=
      div_nonneg (directSum_nonneg _ _ _) (Nat.cast_nonneg _)
    have h2 : 0 ≤ flipSum u v rows / rows :=
      div_nonneg (flipSum_nonneg _ _ _) (Nat.cast_nonneg _)
    by_cases hle : directSum u v rows / rows ≤ flipSum u v rows / rows
    · rw [if_pos hle]; exact h1
    · rw [if_neg hle]; exact h2
  refine ⟨main a b, fun s S M i j hi hj => ?_⟩
  have hcell : (_bundle_minimum_distance_matrix S M rows s).matOut i j =
      tmpD s rows i j := fillGrid_spec _ _ hi hj
  rw [hcell]
  exact main _ _

/-- Witness for C6's amended statement at `rows = 1`. -/
theorem pair_distance_nonneg_for_positive_rows_witness :
    1 ≤ 1 ∧ ∃ r, min_direct_flip_dist (fun _ => 0) (fun _ => 0) 1 = some r ∧ 0 ≤ r :=
  ⟨le_refl 1,
    (pair_distance_nonneg_for_positive_rows (fun _ => 0) (fun _ => 0) 1 (le_refl 1)).1⟩

/-- Counterexample for C5: after the initialization loop an element of
the reduction scratch holds `np.finfo('f8').max`, the largest finite
double, which is not the IEEE value +infinity. -/
theorem scratch_init_value_is_not_infinity :
    initScratch (fun _ => 0) 1 0 = f8max ∧ ((f8max : ℝ) : EReal) ≠ ⊤ :=
  ⟨initScratch_lt _ Nat.zero_lt_one, EReal.coe_ne_top _⟩

/-- C5 as amended: at the start of every `bundle_minimum_distance`
invocation both scratch arrays are initialized so that every element
holds `np.finfo('f8').max = (2^53 - 1) * 2^971` — the largest finite
double, standing in for +infinity — before any pairwise distance is
folded in. -/
theorem scratch_arrays_initialized_to_f8max (s : CoreState) (S M i j : ℕ)
    (hi : i < S) (hj : j < M) :
    (bundleInit S M s).minJ i = f8max ∧ (bundleInit S M s).minI j = f8max :=
  ⟨initScratch_lt s.minJ hi, initScratch_lt s.minI hj⟩

/-- Witness for C5's amended statement. -/
theorem scratch_arrays_initialized_to_f8max_witness :
    0 < 1 ∧ (bundleInit 1 1 exState).minJ 0 = f8max ∧
      (bundleInit 1 1 exState).minI 0 = f8max :=
  ⟨Nat.zero_lt_one,
    scratch_arrays_initialized_to_f8max exState 1 1 0 0 Nat.zero_lt_one Nat.zero_lt_one⟩

/-- C2: for non-empty static and moving sets with a shared positive
point count, the matrix-free reduction equals
`0.25 * (mean_i min_j D[i,j] + mean_j min_i D[i,j])^2` where `D` is the
matrix written by the distance-matrix path on the same inputs, provided
every pair distance fits below `np.finfo('f8').max` (always true of a
finite double, and what makes the finite sentinel act as +infinity). -/
theorem bundle_scalar_matches_matrix_reduction (s : CoreState) (S M rows : ℕ)
    (Dv : ℕ → ℕ → ℝ) (hS : 1 ≤ S) (hM : 1 ≤ M) (_hrows : 1 ≤ rows)
    (hD : ∀ i j, i < S → j < M →
      (_bundle_minimum_distance_matrix S M rows s).matOut i j = some (Dv i j))
    (hb : ∀ i j, i < S → j < M → Dv i j ≤ f8max) :
    (_bundle_minimum_distance S M rows s).2 =
      some (0.25 *
        ((∑ i ∈ Finset.range S, (Finset.range M).inf'
            (Finset.nonempty_range_iff.mpr (by omega)) (Dv i)) / S +
         (∑ j ∈ Finset.range M, (Finset.range S).inf'
            (Finset.nonempty_range_iff.mpr (by omega)) (fun i => Dv i j)) / M) ^ 2) := by
  have hS' : S ≠ 0 := by omega
  have hM' : M ≠ 0 := by omega
  have hv : ∀ i j, i < S → j < M → tmpD s rows i j = some (Dv i j) := by
    intro i j hi hj
    have hcell : (_bundle_minimum_distance_matrix S M rows s).matOut i j =
        tmpD s rows i j := fillGrid_spec _ _ hi hj
    rw [← hcell]
    exact hD i j hi hj
  have hb' : ∀ i j, i < S → j < M → Dv i j ≤ f8max := hb
  rw [bundle_snd_eval S M rows s hS' hM']
  rw [Finset.sum_congr rfl fun i hi =>
    bundle_final_minJ s hM' Dv hv hb' (Finset.mem_range.mp hi)]
  rw [Finset.sum_congr rfl fun j hj =>
    bundle_final_minI s hS' Dv hv hb' (Finset.mem_range.mp hj)]
  congr 1
  ring

/-- Witness for C2 on one all-zero static and moving streamline with a
single point. -/
theorem bundle_scalar_matches_matrix_reduction_witness :
    1 ≤ 1 ∧
    (_bundle_minimum_distance_matrix 1 1 1 exState).matOut 0 0 = some 0 ∧
    (_bundle_minimum_distance 1 1 1 exState).2 =
      some (0.25 *
        ((∑ _i ∈ Finset.range 1, (Finset.range 1).inf'
            (Finset.nonempty_range_iff.mpr (by omega)) (fun _ => (0 : ℝ))) / ((1 : ℕ) : ℝ) +
         (∑ _j ∈ Finset.range 1, (Finset.range 1).inf'
            (Finset.nonempty_range_iff.mpr (by omega)) (fun _ => (0 : ℝ))) /
              ((1 : ℕ) : ℝ)) ^ 2) := by
  have hD00 : (_bundle_minimum_distance_matrix 1 1 1 exState).matOut 0 0 = some 0 := by
    have hcell : (_bundle_minimum_distance_matrix 1 1 1 exState).matOut 0 0 =
        tmpD exState 1 0 0 := fillGrid_spec _ _ Nat.zero_lt_one Nat.zero_lt_one
    rw [hcell]
    exact mdf_zero_streams one_ne_zero
  refine ⟨le_refl 1, hD00, ?_⟩
  exact bundle_scalar_matches_matrix_reduction exState 1 1 1 (fun _ _ => 0)
    (le_refl 1) (le_refl 1) (le_refl 1)
    (fun i j hi hj => by
      have hi0 : i = 0 := by omega
      have hj0 : j = 0 := by omega
      rw [hi0, hj0]
      exact hD00)
    (fun _ _ _ _ => by rw [f8max]; norm_num)

/-- C3: for homogeneous sets sharing point count `R`, every in-range
cell of the matrix produced by `_bundle_minimum_distance_matrix` (over
an arbitrary initial matrix, so every cell is overwritten) and of the
matrix returned by `distance_matrix_mdf` equals the pair distance of the
corresponding static/moving pair at `R` points. -/
theorem distance_matrix_entries_are_pair_distances
    (s : CoreState) (A B : StreamlineSet) (S M R : ℕ)
    (hA : A.npts 0 = R) (hB : B.npts 0 = R)
    (i j : ℕ) (hiS : i < S) (hjM : j < M) (hiA : i < A.size) (hjB : j < B.size) :
    (_bundle_minimum_distance_matrix S M R s).matOut i j =
      min_direct_flip_dist (streamAt s.statBuf R i) (streamAt s.movBuf R j) R ∧
    ∃ D, distance_matrix_mdf A B = Except.ok D ∧
      D i j = min_direct_flip_dist (A.coords i) (B.coords j) R := by
  constructor
  · exact fillGrid_spec _ _ hiS hjM
  · have hcond : ¬ A.npts 0 ≠ B.npts 0 := by rw [hA, hB]; exact fun h => h rfl
    refine ⟨_, by rw [distance_matrix_mdf, if_neg hcond], ?_⟩
    rw [fillGrid_spec _ _ hiA hjB, hA]

/-- Witness for C3 on the two matching one-point single-streamline
sets. -/
theorem distance_matrix_entries_are_pair_distances_witness :
    exA.npts 0 = 1 ∧ exC.npts 0 = 1 ∧ (0 : ℕ) < 1 ∧
    ((_bundle_minimum_distance_matrix 1 1 1 exState).matOut 0 0 =
      min_direct_flip_dist (streamAt exState.statBuf 1 0)
        (streamAt exState.movBuf 1 0) 1 ∧
     ∃ D, distance_matrix_mdf exA exC = Except.ok D ∧
       D 0 0 = min_direct_flip_dist (exA.coords 0) (exC.coords 0) 1) :=
  ⟨rfl, rfl, Nat.zero_lt_one,
    distance_matrix_entries_are_pair_distances exState exA exC 1 1 1 rfl rfl 0 0
      Nat.zero_lt_one Nat.zero_lt_one Nat.zero_lt_one Nat.zero_lt_one⟩

/-- Counterexample for C4: on mismatched first-element point counts the
`ValueError` is raised, but the trace segment before the raise already
contains buffer allocations (`np.zeros` for the track holders and `DM`
run before the shape check), refuting "before allocating any
resources". -/
theorem adapter_allocates_before_raising :
    exA.npts 0 ≠ exB.npts 0 ∧
    ¬ (∀ e ∈ beforeRaise (adapterTrace exA exB), isAllocation e = false) := by
  decide

/-- C4 as amended: on mismatched first-element point counts,
`distance_matrix_mdf` fails with the shape-mismatch `ValueError` and its
trace contains the raise but no pair-distance computation — the error
precedes all distance work, although the output and holder buffers have
already been allocated. -/
theorem adapter_raises_before_any_distance_computation (A B : StreamlineSet)
    (h : A.npts 0 ≠ B.npts 0) :
    distance_matrix_mdf A B = Except.error shapeMismatchMsg ∧
    AdapterEvent.raiseShapeMismatch ∈ adapterTrace A B ∧
    ∀ e ∈ adapterTrace A B, isDistanceComp e = false := by
  refine ⟨by rw [distance_matrix_mdf, if_pos h], ?_, ?_⟩
  · unfold adapterTrace
    rw [if_pos h]
    simp
  · intro e he
    unfold adapterTrace at he
    rw [if_pos h] at he
    simp only [List.mem_append, List.mem_cons, List.not_mem_nil, or_false] at he
    rcases he with (rfl | rfl | rfl) | rfl <;> rfl

/-- Witness for C4's amended statement on the concrete mismatched
sets. -/
theorem adapter_raises_before_any_distance_computation_witness :
    exA.npts 0 ≠ exB.npts 0 ∧
      distance_matrix_mdf exA exB = Except.error shapeMismatchMsg :=
  ⟨by decide,
    (adapter_raises_before_any_distance_computation exA exB (by decide)).1⟩

/-- C9: no operation mutates the caller-supplied streamline geometry:
the two state-based reductions leave the static and moving buffers
exactly as they were, and no event of the adapter's effect trace writes
into either caller-owned input collection (the pure 'min_direct_flip_dist'
reads its arguments only, as its state-free type shows). -/
theorem operations_never_mutate_caller_geometry (s : CoreState) (S M rows : ℕ)
    (A B : StreamlineSet) :
    ((_bundle_minimum_distance_matrix S M rows s).statBuf = s.statBuf ∧
     (_bundle_minimum_distance_matrix S M rows s).movBuf = s.movBuf) ∧
    ((_bundle_minimum_distance S M rows s).1.statBuf = s.statBuf ∧
     (_bundle_minimum_distance S M rows s).1.movBuf = s.movBuf) ∧
    ∀ e ∈ adapterTrace A B, writeTarget e ≠ some Region.inputA ∧
      writeTarget e ≠ some Region.inputB := by
  refine ⟨⟨rfl, rfl⟩, ?_, ?_⟩
  · have h := bundleLoops_bufs S M rows (bundleInit S M s)
    exact ⟨h.1, h.2⟩
  · intro e _
    cases e <;> simp [writeTarget]

/-- C10: the divisions by `rows`, `static_size` and `moving_size` are
unguarded: with all three positive no division by zero occurs and both
entry points return finite values (`isSome`), while at `rows = 0` the
pair distance is the NaN of 0/0 (both accumulated sums are the empty sum
0 and the denominator is 0) returned without raising, and an empty
static or moving set likewise makes `bundle_minimum_distance` produce
NaN rather than an error. -/
theorem unguarded_division_behavior (a b : ℕ → ℝ) (s : CoreState) (S M rows : ℕ)
    (hrows : 1 ≤ rows) (hS : 1 ≤ S) (hM : 1 ≤ M) :
    (min_direct_flip_dist a b rows).isSome = true ∧
    ((_bundle_minimum_distance S M rows s).2).isSome = true ∧
    (directSum a b 0 = 0 ∧ flipSum a b 0 = 0 ∧
      min_direct_flip_dist a b 0 = none) ∧
    ((_bundle_minimum_distance 0 M rows s).2 = none) ∧
    ((_bundle_minimum_distance S 0 rows s).2 = none) := by
  refine ⟨?_, ?_, ⟨?_, ?_, min_direct_flip_dist_zero_rows a b⟩, ?_, ?_⟩
  · rw [min_direct_flip_dist_of_ne_zero a b (by omega)]
    rfl
  · rw [bundle_snd_eval S M rows s (by omega) (by omega)]
    rfl
  · simp [directSum]
  · simp [flipSum]
  · have h1 : (_bundle_minimum_distance 0 M rows s).2 =
        (fdiv (∑ i ∈ Finset.range 0,
          (bundleLoops 0 M rows (bundleInit 0 M s)).minJ i) 0).bind (fun x =>
        (fdiv (∑ j ∈ Finset.range M,
          (bundleLoops 0 M rows (bundleInit 0 M s)).minI j) M).bind (fun y =>
        some (0.25 * (x + y) * (x + y)))) := rfl
    rw [h1, fdiv_zero]
    rfl
  · have h1 : (_bundle_minimum_distance S 0 rows s).2 =
        (fdiv (∑ i ∈ Finset.range S,
          (bundleLoops S 0 rows (bundleInit S 0 s)).minJ i) S).bind (fun x =>
        (fdiv (∑ j ∈ Finset.range 0,
          (bundleLoops S 0 rows (bundleInit S 0 s)).minI j) 0).bind (fun y =>
        some (0.25 * (x + y) * (x + y)))) := rfl
    rw [h1, fdiv_of_ne_zero _ (show S ≠ 0 by omega), fdiv_zero]
    rfl

/-- Witness for C10 with one point, one static and one moving
streamline. -/
theorem unguarded_division_behavior_witness :
    1 ≤ 1 ∧ (min_direct_flip_dist (fun _ => (0 : ℝ)) (fun _ => 0) 1).isSome = true ∧
      ((_bundle_minimum_distance 1 1 1 exState).2).isSome = true :=
  ⟨le_refl 1,
    (unguarded_division_behavior (fun _ => 0) (fun _ => 0) exState 1 1 1
      (le_refl 1) (le_refl 1) (le_refl 1)).1,
    (unguarded_division_behavior (fun _ => 0) (fun _ => 0) exState 1 1 1
      (le_refl 1) (le_refl 1) (le_refl 1)).2.1⟩

end Bundlemin
